import Mathlib

/-!
Shallow embedding of the frame-filtering and report-assembly engine of
`nocolor-eyre` (`src/config.rs`, `src/handler.rs`), together with proofs
about its specification.

Strings are modelled with Lean `String` / `List Char`; the Rust code slices
symbol names by byte index, which coincides with the character model on the
ASCII symbol names the heuristics are written for.
-/

namespace NocolorEyre

/-- `Frame` from `src/config.rs`: index `n` (1-based), optional symbol name,
optional source line number, optional source file path (paths modelled as
strings; `to_string_lossy` is the identity on valid UTF-8). -/
structure Frame where
  n : Nat
  name : Option String
  lineno : Option Nat
  filename : Option String
  deriving DecidableEq, Repr

/-- Rust `str::starts_with`: `strStartsWith s p` is `s.starts_with(p)`. -/
def strStartsWith (s p : String) : Bool :=
  p.data.isPrefixOf s.data

/-- The `SYM_PREFIXES` table of `Frame::is_post_panic_code`. -/
def postPanicPrefixes : List String :=
  [ "_rust_begin_unwind",
    "rust_begin_unwind",
    "core::result::unwrap_failed",
    "core::option::expect_none_failed",
    "core::panicking::panic_fmt",
    "color_backtrace::create_panic_handler",
    "std::panicking::begin_panic",
    "begin_panic_fmt",
    "failure::backtrace::Backtrace::new",
    "backtrace::capture",
    "failure::error_message::err_msg",
    "<failure::error::Error as core::convert::From<F>>::from" ]

/-- `Frame::is_post_panic_code`: a frame with a symbol name matches iff the
name starts with one of the panic-machinery prefixes; a nameless frame does
not match. -/
def is_post_panic_code (fr : Frame) : Bool :=
  match fr.name with
  | some name => postPanicPrefixes.any fun p => strStartsWith name p
  | none => false

/-- The `SYM_PREFIXES` table of `Frame::is_runtime_init_code`. -/
def runtimeInitPrefixes : List String :=
  [ "std::rt::lang_start::",
    "test::run_test::run_test_inner::",
    "std::sys_common::backtrace::__rust_begin_short_backtrace" ]

/-- `Frame::is_runtime_init_code`: requires both a symbol name and a file
name to be present (`_ => return false` otherwise); then matches either one
of the start-up prefixes or the test-harness closure marker. -/
def is_runtime_init_code (fr : Frame) : Bool :=
  match fr.name, fr.filename with
  | some name, some file =>
    (runtimeInitPrefixes.any fun p => strStartsWith name p)
      || (name == "{{closure}}" && file == "src/libtest/lib.rs")
  | _, _ => false

/-- Rust `Iterator::rposition`: index of the last element satisfying `p`. -/
def rposition (p : α → Bool) : List α → Option Nat
  | [] => none
  | a :: l =>
    match rposition p l with
    | some i => some (i + 1)
    | none => if p a then some 0 else none

/-- Rust `Iterator::position`: index of the first element satisfying `p`. -/
def position (p : α → Bool) : List α → Option Nat
  | [] => none
  | a :: l => if p a then some 0 else (position p l).map (· + 1)

/-- `default_frame_filter` from `src/config.rs`: the visibility window.
`top_cutoff` is the 0-based position of the last post-panic frame plus two
(or 0 if none), `bottom_cutoff` the 0-based position of the first
runtime-init frame (or the list length if none); frames whose 1-based `n`
lies outside `top_cutoff..=bottom_cutoff` are dropped. -/
def default_frame_filter (frames : List Frame) : List Frame :=
  let top_cutoff :=
    match rposition (fun x => is_post_panic_code x) frames with
    | some x => x + 2
    | none => 0
  let bottom_cutoff :=
    match position (fun x => is_runtime_init_code x) frames with
    | some x => x
    | none => frames.length
  frames.filter fun x => top_cutoff ≤ x.n && x.n ≤ bottom_cutoff

/-- The prefix table of `eyre_frame_filters`. -/
def eyreFilterPrefixes : List String :=
  [ "<nocolor_eyre::Handler as eyre::EyreHandler>::default",
    "eyre::",
    "nocolor_eyre::" ]

/-- `eyre_frame_filters` from `src/config.rs`: retain a frame iff no filter
prefix "matches" it, where the inner closure returns `true` (match) when the
frame has no symbol name (`else { return true; }`). -/
def eyre_frame_filters (frames : List Frame) : List Frame :=
  frames.filter fun frame =>
    ! eyreFilterPrefixes.any fun f =>
        match frame.name with
        | some name => strStartsWith name f
        | none => true

/-- Rust `char::is_ascii_hexdigit`. -/
def isAsciiHexdigit (c : Char) : Bool :=
  ('0' ≤ c && c ≤ '9') || ('a' ≤ c && c ≤ 'f') || ('A' ≤ c && c ≤ 'F')

/-- The hash-suffix test of `StyledFrame::fmt`: the name is strictly longer
than 19, the 3 characters at offset `len − 19` are `::h`, and the last 16
characters are ASCII hex digits. -/
def hasHashSuffix (name : List Char) : Bool :=
  decide (name.length > 19)
    && ((name.drop (name.length - 19)).take 3 == [':', ':', 'h'])
    && ((name.drop (name.length - 16)).all isAsciiHexdigit)

/-- The name/suffix split of `StyledFrame::fmt`: on a hash suffix the last
19 characters are split off and printed as the suffix; otherwise the name is
printed whole, followed by the literal `"<unknown>"` suffix. -/
def styledSymbol (name : List Char) : List Char × List Char :=
  if hasHashSuffix name then
    (name.take (name.length - 19), name.drop (name.length - 19))
  else
    (name, "<unknown>".data)

/-- The sort key relation of `filtered_frames.sort_by_key(|x| x.n)`. -/
def frameLE (a b : Frame) : Prop := a.n ≤ b.n

instance : DecidableRel frameLE := fun a b => Nat.decLe a.n b.n

instance : IsTotal Frame frameLE := ⟨fun a b => Nat.le_total a.n b.n⟩

instance : IsTrans Frame frameLE := ⟨fun _ _ _ h h' => Nat.le_trans h h'⟩

/-- `filtered_frames.sort_by_key(|x| x.n)`: stable sort ascending by `n`. -/
def sortByN (l : List Frame) : List Frame := l.insertionSort frameLE

/-- One line of `BacktraceFormatter::fmt` output: the `[BACKTRACE]` header,
the `<empty backtrace>` marker, a centered `⋮ N frames hidden ⋮` marker, or
one rendered frame (`StyledFrame`). -/
inductive BtLine where
  | header
  | emptyMarker
  | hidden (count : Nat)
  | frameLine (fr : Frame)
  deriving DecidableEq, Repr

/-- The main loop of `BacktraceFormatter::fmt`: walk the sorted filtered
frames tracking `last_n` (initially 0); before each frame emit a hidden
marker when `frame.n - last_n - 1 ≠ 0` (ℕ subtraction, as `usize`). -/
def renderLoop : Nat → List Frame → List BtLine
  | _, [] => []
  | last_n, frame :: rest =>
    (if frame.n - last_n - 1 ≠ 0 then [BtLine.hidden (frame.n - last_n - 1)] else [])
      ++ BtLine.frameLine frame :: renderLoop frame.n rest

/-- The body of `BacktraceFormatter::fmt` after filtering: short-circuit to
`<empty backtrace>` on an empty filtered list; otherwise sort by `n`, run the
loop, and emit a final hidden marker when the last filtered `n` is below the
last unfiltered `n`. -/
def btRender (frames filtered : List Frame) : List BtLine :=
  BtLine.header ::
    if filtered.isEmpty then [BtLine.emptyMarker]
    else
      let sorted := sortByN filtered
      let last_filtered_n := ((sorted.getLast?).map Frame.n).getD 0
      let last_unfiltered_n := ((frames.getLast?).map Frame.n).getD 0
      renderLoop 0 sorted
        ++ if last_filtered_n < last_unfiltered_n then
            [BtLine.hidden (last_unfiltered_n - last_filtered_n)]
          else []

/-- One resolved symbol of the captured trace (`frame.symbols()` flattened). -/
structure Sym where
  name : Option String
  lineno : Option Nat
  filename : Option String
  deriving DecidableEq, Repr

/-- Zipping the flattened symbols with the counter `n..`: each symbol
becomes a `Frame` numbered by the running counter. -/
def collectFramesFrom : Nat → List Sym → List Frame
  | _, [] => []
  | n, s :: rest => ⟨n, s.name, s.lineno, s.filename⟩ :: collectFramesFrom (n + 1) rest

/-- The frame-collection step of `BacktraceFormatter::fmt`: zip the flattened
symbols with `1usize..`, so the `n` fields are the 1-based positions. -/
def collectFrames (syms : List Sym) : List Frame :=
  collectFramesFrom 1 syms

/-- The show-hidden escape-hatch test of `BacktraceFormatter::fmt`:
`env::var("COLORBT_SHOW_HIDDEN")` matching `Some("1") | Some("on") | Some("y")`. -/
def showHidden (env : String → Option String) : Bool :=
  match env "COLORBT_SHOW_HIDDEN" with
  | some s => s == "1" || s == "on" || s == "y"
  | none => false

/-- The filtering step of `BacktraceFormatter::fmt`: if the show-hidden
variable is affirmative the filters are skipped, otherwise they are applied
left to right. -/
def filteredFrames (env : String → Option String)
    (filters : List (List Frame → List Frame)) (frames : List Frame) : List Frame :=
  if showHidden env then frames
  else filters.foldl (fun fs filt => filt fs) frames

/-- `BacktraceFormatter::fmt` in full: collect, filter (with escape hatch),
then render. -/
def btFormat (env : String → Option String)
    (filters : List (List Frame → List Frame)) (syms : List Sym) : List BtLine :=
  let frames := collectFrames syms
  btRender frames (filteredFrames env filters frames)

/-- Count of hidden-frame markers and their reported counts, in order. -/
def hiddenCounts (ls : List BtLine) : List Nat :=
  ls.filterMap fun l =>
    match l with
    | BtLine.hidden c => some c
    | _ => none

/-- Count of rendered frame entries. -/
def frameLineCount (ls : List BtLine) : Nat :=
  ls.countP fun l =>
    match l with
    | BtLine.frameLine _ => true
    | _ => false

/-- Spec-side description of the maximal gaps: the surviving indices are
flanked by the virtual boundaries `0` (before the first frame) and `N + 1`
(after the last original frame `N`); each consecutive pair `(a, b)`
contributes the number of original indices strictly between them, and the
maximal gaps are the pairs where that number is positive. -/
def specGaps (N : Nat) (l : List Nat) : List Nat :=
  (((0 :: l).zip (l ++ [N + 1])).map fun p => (Finset.Ioo p.1 p.2).card).filter
    fun c => c ≠ 0

/-- A token of composed section output: a separator or one section's text. -/
inductive Tok where
  | sep
  | content (s : String)
  deriving DecidableEq, Repr

/-- Modelled from the spec: the separator handle (`f.header(...)` /
`separated.ready()` from the `writers` module, whose source is not in the
repository snapshot) holds a fixed separator and a flag recording whether
anything has been written through it; `ready` emits the separator exactly
when the flag is already set, then marks it. `composeSections` runs a
sequence of optionally-absent sections through one handle, skipping absent
ones entirely, as `print_panic_info` and `Handler::debug` do. -/
def composeSections (sections : List (Option String)) : List Tok :=
  (sections.foldl
    (fun (st : Bool × List Tok) sec =>
      match sec with
      | none => st
      | some s => (true, st.2 ++ (if st.1 then [Tok.sep] else []) ++ [Tok.content s]))
    (false, [])).2

/-- Number of separators in a composed output. -/
def sepCount (ts : List Tok) : Nat :=
  ts.countP fun t =>
    match t with
    | Tok.sep => true
    | _ => false

/-- Number of sections actually present in a considered sequence. -/
def presentCount (sections : List (Option String)) : Nat :=
  sections.countP Option.isSome

/-- The error kind of a failed `File::open` or line read, as the code
distinguishes them (`ErrorKind::NotFound` versus everything else). -/
inductive IOKind where
  | notFound
  | permissionDenied
  | other
  deriving DecidableEq, Repr

/-- Result of opening a source file: the file's lines (`none` marks a line
whose read fails with an I/O error) or an open error. -/
inductive OpenResult where
  | ok (lines : List (Option String))
  | err (k : IOKind)
  deriving DecidableEq, Repr

/-- One rendered excerpt line of `SourceSection::fmt`: line number, whether
it carries the matched-line marker glyph (`>`; context lines get `│`), and
the line's text. -/
structure ExLine where
  no : Nat
  marked : Bool
  text : String
  deriving DecidableEq, Repr

/-- Outcome of `SourceSection::fmt`: a rendered excerpt (possibly empty), a
`fmt::Error` formatting failure, or a panic. -/
inductive SourceOutcome where
  | ok (lines : List ExLine)
  | fmtError
  | panicked
  deriving DecidableEq, Repr

/-- `SourceSection::fmt`: without both a line number and a file name it
returns successfully with no excerpt; a `NotFound` open error likewise;
any other open error hits `e.unwrap()`, which panics. Otherwise it reads
`take 5` lines starting at `lineno - 2.min(lineno - 1)`, zipped with the
line counter; `line.unwrap()` panics if any read in the window fails. -/
def sourceSection (fs : String → OpenResult) (fr : Frame) : SourceOutcome :=
  match fr.lineno, fr.filename with
  | some lineno, some filename =>
    match fs filename with
    | OpenResult.err IOKind.notFound => SourceOutcome.ok []
    | OpenResult.err _ => SourceOutcome.panicked
    | OpenResult.ok lines =>
      let start_line := lineno - min 2 (lineno - 1)
      let window := (lines.drop (start_line - 1)).take 5
      if window.all Option.isSome then
        SourceOutcome.ok
          (((window.filterMap id).zip (List.range' start_line window.length)).map
            fun p => ⟨p.2, p.2 == lineno, p.1⟩)
      else SourceOutcome.panicked
  | _, _ => SourceOutcome.ok []

/-- Spec-side description of the source window, as amended: number the
file's lines from 1 and show the 5 consecutive line numbers starting at
`max 1 (L − 2)` (clamped at the end of the file), marking exactly the line
numbered `L`. -/
def specExcerpt (lines : List String) (L : Nat) : List ExLine :=
  let start := max 1 (L - 2)
  (List.range' start (min 5 (lines.length + 1 - start))).map
    fun i => ⟨i, i == L, lines.getD (i - 1) ""⟩

/-- Safety of the folding loop of `BacktraceFormatter::fmt`: at every
iteration the `usize` subtraction `frame.n - last_n - 1` has a non-negative
true value, i.e. `last_n + 1 ≤ frame.n`. -/
def loopSafe : Nat → List Frame → Bool
  | _, [] => true
  | last_n, frame :: rest => (decide (last_n + 1 ≤ frame.n)) && loopSafe frame.n rest

/-! ## Proofs -/

lemma compose_foldl_sepCount (secs : List (Option String)) :
    ∀ (flag : Bool) (acc : List Tok),
      sepCount ((secs.foldl
        (fun (st : Bool × List Tok) sec =>
          match sec with
          | none => st
          | some s => (true, st.2 ++ (if st.1 then [Tok.sep] else []) ++ [Tok.content s]))
        (flag, acc)).2)
        = sepCount acc + (if flag then presentCount secs else presentCount secs - 1) := by
  induction secs with
  | nil =>
    intro flag acc
    simp [presentCount]
  | cons sec rest ih =>
    intro flag acc
    cases sec with
    | none =>
      simpa [presentCount, List.countP_cons] using ih flag acc
    | some s =>
      have h := ih true (acc ++ (if flag then [Tok.sep] else []) ++ [Tok.content s])
      simp only [List.foldl_cons] at h ⊢
      rw [h]
      cases flag <;>
        simp [sepCount, presentCount, List.countP_cons, List.countP_append] <;> omega

/-- C3: writing a sequence of optionally-absent sections through one
separator handle yields exactly `m − 1` separators, where `m` is the number
of sections actually present (`0` when `m ≤ 1`, by ℕ subtraction), no matter
which positions were skipped. -/
theorem composer_separator_count (sections : List (Option String)) :
    sepCount (composeSections sections) = presentCount sections - 1 := by
  unfold composeSections
  rw [compose_foldl_sepCount]
  simp [sepCount]

/-- C5 (counterexample): a frame whose `symbol_name` is absent is removed
by `eyre_frame_filters`, contradicting the claim that every such frame
survives. -/
theorem eyre_filter_drops_nameless :
    eyre_frame_filters [({ n := 1, name := none, lineno := none, filename := none } : Frame)]
        = []
      ∧ ({ n := 1, name := none, lineno := none, filename := none } : Frame).name = none := by
  constructor
  · rfl
  · rfl

/-- C5 (amended): `eyre_frame_filters` retains a frame iff its
`symbol_name` is present and starts with none of the library's namespace
prefixes; equivalently it removes a frame iff the name is absent or starts
with one of the prefixes — in particular every nameless frame is removed. -/
theorem eyre_filter_membership (frames : List Frame) (fr : Frame) :
    fr ∈ eyre_frame_filters frames ↔
      fr ∈ frames ∧ ∃ nm, fr.name = some nm ∧
        ∀ p ∈ eyreFilterPrefixes, strStartsWith nm p = false := by
  unfold eyre_frame_filters
  rw [List.mem_filter]
  cases hn : fr.name with
  | none => simp [hn, eyreFilterPrefixes]
  | some nm =>
    simp [hn, List.any_eq_true]

/-- C6 (counterexample): a frame whose symbol name starts with a
runtime-init prefix but whose file is unknown is classified `false` by
`is_runtime_init_code`, although the prefix part of the test does not need
the file — contradicting the claim that a missing field only defeats the
parts of the test that need it. -/
theorem runtime_init_missing_file :
    is_runtime_init_code
        { n := 1, name := some "std::rt::lang_start::habc", lineno := none, filename := none }
        = false
      ∧ strStartsWith "std::rt::lang_start::habc" "std::rt::lang_start::" = true
      ∧ "std::rt::lang_start::" ∈ runtimeInitPrefixes := by
  refine ⟨rfl, by decide, by decide⟩

/-- C6 (amended): `is_runtime_init_code` returns `true` iff the frame has
BOTH a symbol name and a file name, and either the name starts with one of
the startup/test-harness prefixes or the name is the anonymous-closure
marker with the test harness's own source file; whenever either field is
absent the whole classifier returns `false`, even if the prefix part alone
would match. -/
theorem runtime_init_characterization (fr : Frame) :
    is_runtime_init_code fr = true ↔
      ∃ nm file, fr.name = some nm ∧ fr.filename = some file ∧
        ((∃ p ∈ runtimeInitPrefixes, strStartsWith nm p = true) ∨
          (nm = "{{closure}}" ∧ file = "src/libtest/lib.rs")) := by
  unfold is_runtime_init_code
  cases hn : fr.name with
  | none => simp
  | some nm =>
    cases hf : fr.filename with
    | none => simp
    | some file => simp [List.any_eq_true]

lemma hasHashSuffix_iff (name : List Char) :
    hasHashSuffix name = true ↔
      ∃ stem hex : List Char, name = stem ++ [':', ':', 'h'] ++ hex ∧ stem ≠ [] ∧
        hex.length = 16 ∧ hex.all isAsciiHexdigit = true := by
  unfold hasHashSuffix
  simp only [Bool.and_eq_true, decide_eq_true_eq, beq_iff_eq, gt_iff_lt]
  constructor
  · rintro ⟨⟨hlen, hmark⟩, hhex⟩
    refine ⟨name.take (name.length - 19), (name.drop (name.length - 19)).drop 3,
      ?_, ?_, ?_, ?_⟩
    · have htail : [':', ':', 'h'] ++ (name.drop (name.length - 19)).drop 3
          = name.drop (name.length - 19) := by
        rw [← hmark]
        exact List.take_append_drop 3 _
      rw [List.append_assoc, htail, List.take_append_drop]
    · apply List.length_pos.mp
      rw [List.length_take]
      omega
    · rw [List.length_drop, List.length_drop]
      omega
    · rw [List.drop_drop]
      have : name.length - 19 + 3 = name.length - 16 := by omega
      rw [this]
      exact hhex
  · rintro ⟨stem, hex, hname, hstem, hlen, hhex⟩
    have hstl : 1 ≤ stem.length := List.length_pos.mpr hstem
    have hl : name.length = stem.length + 19 := by
      subst hname
      simp [hlen]
    have h19 : name.length - 19 = stem.length := by omega
    have h16 : name.length - 16 = stem.length + 3 := by omega
    have hdrop : name.drop (name.length - 19) = [':', ':', 'h'] ++ hex := by
      rw [h19, hname, List.append_assoc, List.drop_left' rfl]
    refine ⟨⟨by omega, ?_⟩, ?_⟩
    · rw [hdrop]
      exact List.take_left' rfl
    · rw [h16, hname,
        List.drop_left' (by simp : (stem ++ [':', ':', 'h']).length = stem.length + 3)]
      exact hhex

/-- C7 (counterexample): the spec's example symbol
`"foo::bar::h0123456789abcdef0"` has 17 characters after `::h`, so the
19-character suffix test fails (the window at offset −19 reads `":h0"`, not
`"::h"`): the name is printed whole with the `"<unknown>"` suffix instead of
splitting into `"foo::bar"` plus a hash suffix. -/
theorem styled_symbol_example_not_split :
    styledSymbol "foo::bar::h0123456789abcdef0".data
        = ("foo::bar::h0123456789abcdef0".data, "<unknown>".data)
      ∧ ("foo::bar::h0123456789abcdef0".data, "<unknown>".data).1 ≠ "foo::bar".data := by
  exact ⟨by decide, by decide⟩

/-- C7 (amended): with exactly 16 hex digits after the 3-character marker
(symbol `"foo::bar::h0123456789abcdef"`) the name splits into `"foo::bar"`
and the separately printed 19-character suffix; the same-length name whose
tail characters are not all hex digits is printed whole with suffix
`"<unknown>"`; and in general the tail is split off exactly when the name is
longer than 19 characters and ends in the 3-character marker `::h` followed
by 16 hex digits (equivalently, when it decomposes as a non-empty stem, the
marker, and 16 hex digits). -/
theorem styled_symbol_split :
    styledSymbol "foo::bar::h0123456789abcdef".data
        = ("foo::bar".data, "::h0123456789abcdef".data)
      ∧ styledSymbol "foo::bar::h0123456789abcdeg".data
          = ("foo::bar::h0123456789abcdeg".data, "<unknown>".data)
      ∧ (∀ name stem hex : List Char,
          name = stem ++ [':', ':', 'h'] ++ hex → stem ≠ [] → hex.length = 16 →
          hex.all isAsciiHexdigit = true →
          styledSymbol name = (stem, [':', ':', 'h'] ++ hex))
      ∧ (∀ name : List Char, hasHashSuffix name = false →
          styledSymbol name = (name, "<unknown>".data)) := by
  refine ⟨by decide, by decide, ?_, ?_⟩
  · intro name stem hex hname hstem hlen hhex
    have hsuf : hasHashSuffix name = true :=
      (hasHashSuffix_iff name).mpr ⟨stem, hex, hname, hstem, hlen, hhex⟩
    have hstl : 1 ≤ stem.length := List.length_pos.mpr hstem
    have hl : name.length = stem.length + 19 := by
      subst hname
      simp [hlen]
    have h19 : name.length - 19 = stem.length := by omega
    unfold styledSymbol
    rw [hsuf]
    simp only [if_true]
    rw [h19, hname, List.append_assoc, List.take_left' rfl, List.drop_left' rfl]
  · intro name hsuf
    unfold styledSymbol
    rw [hsuf]
    simp

/-- C2 (counterexample): in a 5-frame trace where only frame 2 is
post-panic and no frame is runtime-init, `default_frame_filter` retains the
frames with indices 3, 4 and 5 (the cutoff is the 0-based position 1 of the
panic frame plus 2, compared against the 1-based `n`), not `[4, 5]` as the
claim states. -/
theorem default_filter_retains_three_four_five :
    ([⟨1, some "aa::one", none, none⟩, ⟨2, some "rust_begin_unwind", none, none⟩,
        ⟨3, some "aa::three", none, none⟩, ⟨4, some "aa::four", none, none⟩,
        ⟨5, some "aa::five", none, none⟩] : List Frame).map
          (fun f => (is_post_panic_code f, is_runtime_init_code f))
        = [(false, false), (true, false), (false, false), (false, false), (false, false)]
      ∧ (default_frame_filter
          [⟨1, some "aa::one", none, none⟩, ⟨2, some "rust_begin_unwind", none, none⟩,
            ⟨3, some "aa::three", none, none⟩, ⟨4, some "aa::four", none, none⟩,
            ⟨5, some "aa::five", none, none⟩]).map Frame.n = [3, 4, 5]
      ∧ ([3, 4, 5] : List Nat) ≠ [4, 5] := by
  exact ⟨by decide, by decide, by decide⟩

/-- C2 (amended): for any 5-frame trace where frame 2 (1-based) is the only
frame classified post-panic and no frame is classified runtime-init, the
default visibility-window filter retains exactly the frames with index in
`[3, 5]` (it skips only up to the frame after the panic frame, not two). -/
theorem default_filter_window (f1 f2 f3 f4 f5 : Frame)
    (h1 : f1.n = 1) (h2 : f2.n = 2) (h3 : f3.n = 3) (h4 : f4.n = 4) (h5 : f5.n = 5)
    (hp1 : is_post_panic_code f1 = false) (hp2 : is_post_panic_code f2 = true)
    (hp3 : is_post_panic_code f3 = false) (hp4 : is_post_panic_code f4 = false)
    (hp5 : is_post_panic_code f5 = false)
    (hr1 : is_runtime_init_code f1 = false) (hr2 : is_runtime_init_code f2 = false)
    (hr3 : is_runtime_init_code f3 = false) (hr4 : is_runtime_init_code f4 = false)
    (hr5 : is_runtime_init_code f5 = false) :
    (default_frame_filter [f1, f2, f3, f4, f5]).map Frame.n = [3, 4, 5] := by
  unfold default_frame_filter
  simp [rposition, position, hp1, hp2, hp3, hp4, hp5, hr1, hr2, hr3, hr4, hr5,
    List.filter, h1, h2, h3, h4, h5]

/-- Witness for the amended C2 at a concrete trace. -/
theorem default_filter_window_witness :
    (default_frame_filter
        [⟨1, some "bb::a", none, none⟩, ⟨2, some "core::panicking::panic_fmt::x", none, none⟩,
          ⟨3, some "bb::c", none, none⟩, ⟨4, some "bb::d", none, none⟩,
          ⟨5, some "bb::e", none, none⟩]).map Frame.n = [3, 4, 5] :=
  default_filter_window _ _ _ _ _ rfl rfl rfl rfl rfl
    (by decide) (by decide) (by decide) (by decide) (by decide)
    (by decide) (by decide) (by decide) (by decide) (by decide)

/-- C8 (counterexample): an open failure other than not-found (here,
permission denied) makes `SourceSection::fmt` hit `e.unwrap()` and panic; it
does not come back as a `fmt::Error` formatting failure. -/
theorem source_section_open_error_panics :
    sourceSection (fun _ => OpenResult.err IOKind.permissionDenied)
        { n := 1, name := none, lineno := some 10, filename := some "main.rs" }
        = SourceOutcome.panicked
      ∧ SourceOutcome.panicked ≠ SourceOutcome.fmtError := by
  exact ⟨rfl, by decide⟩

/-- C8 (amended): while rendering a source excerpt, a file-not-found error
when opening the source file yields no excerpt and the render succeeds; any
other I/O failure while opening the file causes a panic (as does a failed
line read inside the window), not a recoverable formatting failure. -/
theorem source_section_open_errors (fs : String → OpenResult) (fr : Frame)
    (L : Nat) (fn : String) (hl : fr.lineno = some L) (hf : fr.filename = some fn) :
    (fs fn = OpenResult.err IOKind.notFound → sourceSection fs fr = SourceOutcome.ok [])
      ∧ (∀ k, k ≠ IOKind.notFound → fs fn = OpenResult.err k →
          sourceSection fs fr = SourceOutcome.panicked)
      ∧ (∀ lines, fs fn = OpenResult.ok lines →
          ((lines.drop (L - min 2 (L - 1) - 1)).take 5).all Option.isSome = false →
          sourceSection fs fr = SourceOutcome.panicked) := by
  refine ⟨?_, ?_, ?_⟩
  · intro hfs
    simp [sourceSection, hl, hf, hfs]
  · intro k hk hfs
    cases k with
    | notFound => exact absurd rfl hk
    | permissionDenied => simp [sourceSection, hl, hf, hfs]
    | other => simp [sourceSection, hl, hf, hfs]
  · intro lines hfs hwin
    simp [sourceSection, hl, hf, hfs, hwin]

/-- Witness for the amended C8 at concrete file systems. -/
theorem source_section_open_errors_witness :
    (sourceSection (fun _ => OpenResult.err IOKind.notFound)
        { n := 1, name := none, lineno := some 3, filename := some "lib.rs" }
        = SourceOutcome.ok [])
      ∧ (sourceSection (fun _ => OpenResult.err IOKind.other)
          { n := 1, name := none, lineno := some 3, filename := some "lib.rs" }
          = SourceOutcome.panicked)
      ∧ (sourceSection (fun _ => OpenResult.ok [some "r1", none, some "r3"])
          { n := 1, name := none, lineno := some 1, filename := some "lib.rs" }
          = SourceOutcome.panicked) :=
  ⟨(source_section_open_errors (fun _ => OpenResult.err IOKind.notFound)
      { n := 1, name := none, lineno := some 3, filename := some "lib.rs" }
      3 "lib.rs" rfl rfl).1 rfl,
    (source_section_open_errors (fun _ => OpenResult.err IOKind.other)
      { n := 1, name := none, lineno := some 3, filename := some "lib.rs" }
      3 "lib.rs" rfl rfl).2.1 IOKind.other (by decide) rfl,
    (source_section_open_errors (fun _ => OpenResult.ok [some "r1", none, some "r3"])
      { n := 1, name := none, lineno := some 1, filename := some "lib.rs" }
      1 "lib.rs" rfl rfl).2.2 [some "r1", none, some "r3"] rfl (by decide)⟩

lemma window_excerpt_eq (L : Nat) (lines : List String) :
    ∀ (k i : Nat), 1 ≤ i →
      ((((lines.drop (i - 1)).take k).zip
            (List.range' i ((lines.drop (i - 1)).take k).length)).map
          fun p => (⟨p.2, p.2 == L, p.1⟩ : ExLine))
        = (List.range' i (min k (lines.length + 1 - i))).map
            fun j => ⟨j, j == L, lines.getD (j - 1) ""⟩ := by
  intro k
  induction k with
  | zero =>
    intro i hi
    simp
  | succ k ih =>
    intro i hi
    cases hd : lines.drop (i - 1) with
    | nil =>
      have hlen := congrArg List.length hd
      simp only [List.length_drop, List.length_nil] at hlen
      have hmin : min (k + 1) (lines.length + 1 - i) = 0 := by omega
      rw [hmin]
      simp
    | cons x t =>
      have hlen := congrArg List.length hd
      simp only [List.length_drop, List.length_cons] at hlen
      have hx : lines.getD (i - 1) "" = x := by
        have h0 : (lines.drop (i - 1))[0]? = some x := by
          rw [hd]
          simp
        rw [List.getElem?_drop] at h0
        simp only [Nat.add_zero] at h0
        simp [List.getD_eq_getElem?_getD, h0]
      have ht : t = lines.drop i := by
        have hdd := congrArg (List.drop 1) hd
        rw [List.drop_drop] at hdd
        have hii : i - 1 + 1 = i := by omega
        rw [hii] at hdd
        simpa using hdd.symm
      have hmin : min (k + 1) (lines.length + 1 - i)
          = min k (lines.length + 1 - (i + 1)) + 1 := by omega
      rw [hmin]
      simp only [List.take_succ_cons, List.length_cons, List.range'_succ,
        List.zip_cons_cons, List.map_cons]
      have hrest : (lines.drop ((i + 1) - 1)).take k = t.take k := by
        rw [Nat.add_sub_cancel, ← ht]
      have := ih (i + 1) (by omega)
      rw [hrest] at this
      rw [this, hx]

/-- C9 (counterexample): at Full verbosity with a known file of five lines
and matched line 1, the rendered window is lines 1–5 — four lines after
the matched line — because the code always takes five consecutive lines
starting at `max 1 (L − 2)`; the claim's "up to 2 lines after it" bound is
violated near the start of the file. -/
theorem source_window_line_one :
    sourceSection
        (fun _ => OpenResult.ok (["a1", "a2", "a3", "a4", "a5"].map some))
        { n := 1, name := none, lineno := some 1, filename := some "w.rs" }
        = SourceOutcome.ok
            [⟨1, true, "a1"⟩, ⟨2, false, "a2"⟩, ⟨3, false, "a3"⟩,
              ⟨4, false, "a4"⟩, ⟨5, false, "a5"⟩]
      ∧ ¬ (4 : Nat) ≤ 1 + 2 := by
  exact ⟨by decide, by decide⟩

/-- C9 (amended): at Full verbosity, for a frame with known file and known
line number `L ≥ 1` whose lines all read successfully, the printed source
window is the five consecutive numbered lines starting at `max 1 (L − 2)`
(clamped at the end of the file) — so near the start of the file up to four
lines after the match appear; each line is prefixed by its number, the
matched line with the distinct marker glyph and context lines with the
plain separator glyph. -/
theorem source_window_spec (fs : String → OpenResult) (fr : Frame)
    (L : Nat) (fn : String) (lines : List String)
    (hl : fr.lineno = some L) (hL : 1 ≤ L) (hf : fr.filename = some fn)
    (hfs : fs fn = OpenResult.ok (lines.map some)) :
    sourceSection fs fr = SourceOutcome.ok (specExcerpt lines L) := by
  simp only [sourceSection, hl, hf, hfs]
  have hstart : L - min 2 (L - 1) = max 1 (L - 2) := by omega
  rw [hstart, ← List.map_drop, ← List.map_take]
  have hall : (((lines.drop (max 1 (L - 2) - 1)).take 5).map some).all Option.isSome
      = true := by
    apply List.all_eq_true.mpr
    intro x hx
    obtain ⟨y, _, rfl⟩ := List.mem_map.mp hx
    rfl
  rw [if_pos hall]
  rw [List.filterMap_map]
  have hfm : (Option.some ∘ Option.some) = fun s : String => some (some s) := rfl
  simp only [Function.id_comp, List.filterMap_some, List.length_map]
  rw [window_excerpt_eq L lines 5 (max 1 (L - 2)) (by omega)]
  simp [specExcerpt]

/-- Witness for the amended C9 at a concrete file and line number. -/
theorem source_window_spec_witness :
    sourceSection (fun _ => OpenResult.ok (["b1", "b2", "b3", "b4", "b5", "b6"].map some))
        { n := 1, name := none, lineno := some 4, filename := some "x.rs" }
        = SourceOutcome.ok (specExcerpt ["b1", "b2", "b3", "b4", "b5", "b6"] 4) :=
  source_window_spec _ _ 4 "x.rs" ["b1", "b2", "b3", "b4", "b5", "b6"]
    rfl (by decide) rfl rfl

lemma collectFramesFrom_map_n :
    ∀ (syms : List Sym) (k : Nat),
      (collectFramesFrom k syms).map Frame.n = List.range' k syms.length := by
  intro syms
  induction syms with
  | nil => intro k; rfl
  | cons s rest ih =>
    intro k
    simp only [collectFramesFrom, List.map_cons, List.length_cons, List.range'_succ]
    rw [ih (k + 1)]

lemma collectFramesFrom_length (syms : List Sym) (k : Nat) :
    (collectFramesFrom k syms).length = syms.length := by
  have := congrArg List.length (collectFramesFrom_map_n syms k)
  simpa using this

lemma sorted_of_map_n_range' {l : List Frame} {s n : Nat}
    (h : l.map Frame.n = List.range' s n) : l.Sorted frameLE := by
  have hp : (l.map Frame.n).Pairwise (· ≤ ·) := by
    rw [h]
    exact List.pairwise_le_range' s n
  exact (List.pairwise_map.mp hp).imp fun {a b} hab => hab

lemma renderLoop_consecutive :
    ∀ (fs : List Frame) (last : Nat),
      fs.map Frame.n = List.range' (last + 1) fs.length →
      renderLoop last fs = fs.map BtLine.frameLine := by
  intro fs
  induction fs with
  | nil => intro last _; rfl
  | cons f rest ih =>
    intro last h
    simp only [List.map_cons, List.length_cons, List.range'_succ, List.cons.injEq] at h
    obtain ⟨hf, hrest⟩ := h
    simp only [renderLoop, hf, List.map_cons]
    rw [Nat.add_sub_cancel_left, Nat.sub_self]
    simp only [ne_eq, not_true_eq_false, if_false, List.nil_append, List.cons.injEq,
      true_and]
    rw [← hf]
    exact ih f.n (by rw [hrest, hf])

/-- C4: if the show-hidden environment variable is set to an affirmative
value (`"1"`, `"on"` or `"y"`) at render time, then for every captured trace
and every configured filter list the rendered backtrace contains one frame
entry per captured frame and zero hidden-frame markers — the variable is
consulted once per render, before any filter runs, so no filter affects the
output. -/
theorem show_hidden_shows_all_frames (env : String → Option String)
    (filters : List (List Frame → List Frame)) (syms : List Sym)
    (h : env "COLORBT_SHOW_HIDDEN" = some "1" ∨ env "COLORBT_SHOW_HIDDEN" = some "on"
      ∨ env "COLORBT_SHOW_HIDDEN" = some "y") :
    frameLineCount (btFormat env filters syms) = syms.length
      ∧ hiddenCounts (btFormat env filters syms) = [] := by
  have hsh : showHidden env = true := by
    rcases h with h | h | h <;> simp [showHidden, h]
  simp only [btFormat]
  rw [show filteredFrames env filters (collectFrames syms) = collectFrames syms from by
    unfold filteredFrames
    rw [hsh]
    rfl]
  set frames := collectFrames syms with hframes
  have hmap : frames.map Frame.n = List.range' 1 syms.length :=
    collectFramesFrom_map_n syms 1
  have hlen : frames.length = syms.length := collectFramesFrom_length syms 1
  by_cases hfe : frames = []
  · have hsl : syms.length = 0 := by rw [← hlen, hfe]; rfl
    rw [hfe]
    simp [btRender, frameLineCount, hiddenCounts, hsl]
  · have hfe' : frames.isEmpty = false := List.isEmpty_eq_false.mpr hfe
    have hsorted : sortByN frames = frames :=
      (sorted_of_map_n_range' hmap).insertionSort_eq
    simp only [btRender, hfe', Bool.false_eq_true, if_false, hsorted]
    have hloop : renderLoop 0 frames = frames.map BtLine.frameLine :=
      renderLoop_consecutive frames 0 (by rw [hmap, hlen])
    rw [hloop]
    rw [if_neg (lt_irrefl _)]
    constructor
    · rw [← hlen]
      simp only [frameLineCount, List.countP_cons, List.countP_append]
      induction frames with
      | nil => rfl
      | cons a l ihl => simp_all [List.countP_cons]
    · simp only [hiddenCounts, List.filterMap_cons, List.filterMap_append]
      induction frames with
      | nil => rfl
      | cons a l ihl => simp_all [List.filterMap_cons]

/-- Witness for C4 at a concrete environment, filter list and trace. -/
theorem show_hidden_shows_all_frames_witness :
    frameLineCount
        (btFormat (fun _ => some "on") [fun _ => []]
          [⟨some "s1", none, none⟩, ⟨some "s2", none, none⟩, ⟨some "s3", none, none⟩])
        = 3
      ∧ hiddenCounts
          (btFormat (fun _ => some "on") [fun _ => []]
            [⟨some "s1", none, none⟩, ⟨some "s2", none, none⟩, ⟨some "s3", none, none⟩])
          = [] :=
  show_hidden_shows_all_frames (fun _ => some "on") [fun _ => []]
    [⟨some "s1", none, none⟩, ⟨some "s2", none, none⟩, ⟨some "s3", none, none⟩]
    (Or.inr (Or.inl rfl))

lemma hiddenCounts_append (a b : List BtLine) :
    hiddenCounts (a ++ b) = hiddenCounts a ++ hiddenCounts b :=
  List.filterMap_append a b _

lemma hiddenCounts_frameLine_cons (f : Frame) (l : List BtLine) :
    hiddenCounts (BtLine.frameLine f :: l) = hiddenCounts l := rfl

lemma hiddenCounts_header_cons (l : List BtLine) :
    hiddenCounts (BtLine.header :: l) = hiddenCounts l := rfl

lemma map_n_getLastD (l : List Frame) (d : Nat) :
    (l.map Frame.n).getLastD d = ((l.getLast?).map Frame.n).getD d := by
  rw [List.getLastD_eq_getLast?, List.getLast?_map]

lemma range'_getLastD (s n d : Nat) (h : n ≠ 0) :
    (List.range' s n).getLastD d = s + n - 1 := by
  obtain ⟨m, rfl⟩ : ∃ m, n = m + 1 := ⟨n - 1, by omega⟩
  rw [List.range'_concat, List.getLastD_eq_getLast?, List.getLast?_concat]
  simp

lemma renderLoop_trailing_gaps :
    ∀ (fs : List Frame) (last N : Nat),
      hiddenCounts (renderLoop last fs
          ++ if (fs.map Frame.n).getLastD last < N
              then [BtLine.hidden (N - (fs.map Frame.n).getLastD last)] else [])
        = (((last :: fs.map Frame.n).zip (fs.map Frame.n ++ [N + 1])).map
            fun p => (Finset.Ioo p.1 p.2).card).filter fun c => c ≠ 0 := by
  intro fs
  induction fs with
  | nil =>
    intro last N
    simp only [List.map_nil, List.getLastD_nil, List.nil_append, List.zip_cons_cons,
      List.zip_nil_right, List.map_cons, List.map_nil, renderLoop]
    rw [Nat.card_Ioo]
    have hv : N + 1 - last - 1 = N - last := by omega
    rw [hv]
    by_cases h : last < N
    · rw [if_pos h, List.filter_cons_of_pos (by simp; omega)]
      rfl
    · rw [if_neg h, List.filter_cons_of_neg (by simp; omega)]
      rfl
  | cons f rest ih =>
    intro last N
    simp only [renderLoop, List.map_cons, List.getLastD_cons, List.append_assoc,
      List.cons_append, List.zip_cons_cons]
    rw [hiddenCounts_append, hiddenCounts_frameLine_cons, ih f.n N]
    rw [Nat.card_Ioo]
    by_cases hd : f.n - last - 1 = 0
    · rw [if_neg (by omega : ¬ f.n - last - 1 ≠ 0)]
      rw [List.filter_cons_of_neg (by simp [hd])]
      rfl
    · rw [if_pos hd]
      rw [List.filter_cons_of_pos (by simp [hd])]
      rfl

lemma gaps_sum :
    ∀ (l : List Nat) (last N : Nat), List.Chain' (· < ·) (last :: l) →
      (∀ x ∈ l, x ≤ N) →
      ((((last :: l).zip (l ++ [N + 1])).map fun p => (Finset.Ioo p.1 p.2).card).filter
          (fun c => c ≠ 0)).sum + l.length = N - last := by
  intro l
  induction l with
  | nil =>
    intro last N _ _
    simp only [List.nil_append, List.zip_cons_cons, List.zip_nil_right, List.map_cons,
      List.map_nil, List.length_nil, Nat.add_zero]
    rw [Nat.card_Ioo]
    by_cases h : N + 1 - last - 1 = 0
    · rw [List.filter_cons_of_neg (by simp [h])]
      simp only [List.filter_nil, List.sum_nil]
      omega
    · rw [List.filter_cons_of_pos (by simp [h])]
      simp only [List.filter_nil, List.sum_cons, List.sum_nil]
      omega
  | cons a t ih =>
    intro last N hch hb
    rw [List.chain'_cons] at hch
    have hlt : last < a := hch.1
    have haN : a ≤ N := hb a (List.mem_cons_self a t)
    have hrec := ih a N hch.2 fun x hx => hb x (List.mem_cons_of_mem a hx)
    simp only [List.cons_append, List.zip_cons_cons, List.map_cons, List.length_cons]
    rw [Nat.card_Ioo]
    by_cases h : a - last - 1 = 0
    · rw [List.filter_cons_of_neg (by simp [h])]
      omega
    · rw [List.filter_cons_of_pos (by simp [h])]
      rw [List.sum_cons]
      omega

lemma sortByN_facts (N : Nat) (frames filtered : List Frame)
    (hns : frames.map Frame.n = List.range' 1 N)
    (hsub : ∀ f ∈ filtered, f ∈ frames)
    (hnd : (filtered.map Frame.n).Nodup) :
    List.Chain' (· < ·) (0 :: (sortByN filtered).map Frame.n)
      ∧ (∀ x ∈ (sortByN filtered).map Frame.n, 1 ≤ x ∧ x ≤ N)
      ∧ ((sortByN filtered).map Frame.n).length = filtered.length := by
  have hperm : List.Perm (sortByN filtered) filtered := List.perm_insertionSort frameLE filtered
  have hpermn : List.Perm ((sortByN filtered).map Frame.n) (filtered.map Frame.n) := hperm.map Frame.n
  have hmem : ∀ x ∈ (sortByN filtered).map Frame.n, 1 ≤ x ∧ x ≤ N := by
    intro x hx
    rw [hpermn.mem_iff] at hx
    obtain ⟨f, hf, rfl⟩ := List.mem_map.mp hx
    have hm : f.n ∈ frames.map Frame.n := List.mem_map_of_mem Frame.n (hsub f hf)
    rw [hns] at hm
    have := List.mem_range'_1.mp hm
    omega
  have hsorted : (sortByN filtered).Sorted frameLE :=
    List.sorted_insertionSort frameLE filtered
  have hple : ((sortByN filtered).map Frame.n).Pairwise (· ≤ ·) := by
    rw [List.pairwise_map]
    exact hsorted
  have hnd' : ((sortByN filtered).map Frame.n).Nodup := hpermn.nodup_iff.mpr hnd
  have hplt : ((sortByN filtered).map Frame.n).Pairwise (· < ·) :=
    (hple.and hnd').imp fun hab => Nat.lt_of_le_of_ne hab.1 hab.2
  refine ⟨?_, hmem, by rw [List.length_map, hperm.length_eq]⟩
  apply List.Pairwise.chain'
  rw [List.pairwise_cons]
  exact ⟨fun x hx => (hmem x hx).1, hplt⟩

/-- C1: for every non-empty filtered subset of a captured frame list with
1-based indices `1..N`, the backtrace body — after sorting the subset
ascending by index — emits one hidden-frames marker per maximal gap in the
surviving indices (including the trailing gap when the last surviving index
is below `N`), each marker counting exactly the original indices hidden in
that gap; consequently the marker counts sum to `N` minus the number of
surviving frames. -/
theorem backtrace_folding_invariant (N : Nat) (frames filtered : List Frame)
    (hns : frames.map Frame.n = List.range' 1 N)
    (hsub : ∀ f ∈ filtered, f ∈ frames)
    (hnd : (filtered.map Frame.n).Nodup)
    (hne : filtered ≠ []) :
    hiddenCounts (btRender frames filtered)
        = specGaps N ((sortByN filtered).map Frame.n)
      ∧ (hiddenCounts (btRender frames filtered)).sum + filtered.length = N := by
  obtain ⟨hch, hbnd, hlen⟩ := sortByN_facts N frames filtered hns hsub hnd
  have hfe : filtered.isEmpty = false := List.isEmpty_eq_false.mpr hne
  have hNpos : N ≠ 0 := by
    obtain ⟨f, hf⟩ := List.exists_mem_of_ne_nil filtered hne
    have hm : f.n ∈ frames.map Frame.n := List.mem_map_of_mem Frame.n (hsub f hf)
    rw [hns] at hm
    intro h0
    rw [h0] at hm
    simp at hm
  have hlastU : ((frames.getLast?).map Frame.n).getD 0 = N := by
    rw [← map_n_getLastD frames 0, hns, range'_getLastD 1 N 0 hNpos]
    omega
  have hmain :
      hiddenCounts (btRender frames filtered)
        = specGaps N ((sortByN filtered).map Frame.n) := by
    simp only [btRender, hfe, Bool.false_eq_true, if_false]
    rw [hiddenCounts_header_cons, hlastU, ← map_n_getLastD (sortByN filtered) 0]
    rw [renderLoop_trailing_gaps (sortByN filtered) 0 N]
    rfl
  refine ⟨hmain, ?_⟩
  rw [hmain]
  have hsum := gaps_sum ((sortByN filtered).map Frame.n) 0 N hch
    fun x hx => (hbnd x hx).2
  rw [hlen] at hsum
  simpa [specGaps] using hsum

/-- Witness for C1 at a concrete capture and filtered subset. -/
theorem backtrace_folding_invariant_witness :
    hiddenCounts
        (btRender
          [⟨1, none, none, none⟩, ⟨2, none, none, none⟩, ⟨3, none, none, none⟩,
            ⟨4, none, none, none⟩, ⟨5, none, none, none⟩]
          [⟨5, none, none, none⟩, ⟨2, none, none, none⟩])
        = specGaps 5
            ((sortByN [⟨5, none, none, none⟩, ⟨2, none, none, none⟩]).map Frame.n)
      ∧ (hiddenCounts
          (btRender
            [⟨1, none, none, none⟩, ⟨2, none, none, none⟩, ⟨3, none, none, none⟩,
              ⟨4, none, none, none⟩, ⟨5, none, none, none⟩]
            [⟨5, none, none, none⟩, ⟨2, none, none, none⟩])).sum
          + ([⟨5, none, none, none⟩, ⟨2, none, none, none⟩] : List Frame).length = 5 :=
  backtrace_folding_invariant 5
    [⟨1, none, none, none⟩, ⟨2, none, none, none⟩, ⟨3, none, none, none⟩,
      ⟨4, none, none, none⟩, ⟨5, none, none, none⟩]
    [⟨5, none, none, none⟩, ⟨2, none, none, none⟩]
    (by decide) (by decide) (by decide) (by decide)

lemma loopSafe_of_chain :
    ∀ (fs : List Frame) (last : Nat),
      List.Chain' (· < ·) (last :: fs.map Frame.n) → loopSafe last fs = true := by
  intro fs
  induction fs with
  | nil => intro last _; rfl
  | cons f rest ih =>
    intro last h
    rw [List.map_cons, List.chain'_cons] at h
    simp only [loopSafe, Bool.and_eq_true, decide_eq_true_eq]
    exact ⟨h.1, ih f.n h.2⟩

/-- C10: under the precondition that the filters only removed entries (the
surviving frames are members of the originally numbered frames, with
distinct indices) and that the surviving list passed the non-emptiness
check, the folding loop's subtraction `frame.n - last_n - 1` never
underflows (each frame's `n` exceeds the previous `last_n`), both
`last()` unwraps succeed, and the trailing subtraction
`last_unfiltered_n - last_filtered_n` never underflows. -/
theorem folding_loop_safety (N : Nat) (frames filtered : List Frame)
    (hns : frames.map Frame.n = List.range' 1 N)
    (hsub : ∀ f ∈ filtered, f ∈ frames)
    (hnd : (filtered.map Frame.n).Nodup)
    (hne : filtered ≠ []) :
    loopSafe 0 (sortByN filtered) = true
      ∧ (sortByN filtered).getLast?.isSome = true
      ∧ frames.getLast?.isSome = true
      ∧ (((sortByN filtered).getLast?).map Frame.n).getD 0
          ≤ ((frames.getLast?).map Frame.n).getD 0 := by
  obtain ⟨hch, hbnd, hlen⟩ := sortByN_facts N frames filtered hns hsub hnd
  have hsne : sortByN filtered ≠ [] := by
    intro h0
    apply hne
    rw [h0] at hlen
    exact List.eq_nil_of_length_eq_zero (by simpa using hlen.symm)
  have hfne : frames ≠ [] := by
    obtain ⟨f, hf⟩ := List.exists_mem_of_ne_nil filtered hne
    exact List.ne_nil_of_mem (hsub f hf)
  have hNpos : N ≠ 0 := by
    obtain ⟨f, hf⟩ := List.exists_mem_of_ne_nil filtered hne
    have hm : f.n ∈ frames.map Frame.n := List.mem_map_of_mem Frame.n (hsub f hf)
    rw [hns] at hm
    intro h0
    rw [h0] at hm
    simp at hm
  have hlastU : ((frames.getLast?).map Frame.n).getD 0 = N := by
    rw [← map_n_getLastD frames 0, hns, range'_getLastD 1 N 0 hNpos]
    omega
  have hmapne : (sortByN filtered).map Frame.n ≠ [] := by
    simpa using hsne
  have hlastF : (((sortByN filtered).getLast?).map Frame.n).getD 0
      ∈ (sortByN filtered).map Frame.n := by
    rw [← map_n_getLastD (sortByN filtered) 0, List.getLastD_eq_getLast?,
      List.getLast?_eq_getLast _ hmapne]
    exact List.getLast_mem hmapne
  refine ⟨?_, ?_, ?_, ?_⟩
  · exact loopSafe_of_chain (sortByN filtered) 0 (by simpa using hch)
  · exact List.getLast?_isSome.mpr hsne
  · exact List.getLast?_isSome.mpr hfne
  · rw [hlastU]
    exact (hbnd _ hlastF).2

/-- Witness for C10 at a concrete capture and filtered subset. -/
theorem folding_loop_safety_witness :
    loopSafe 0 (sortByN [⟨4, none, none, none⟩, ⟨1, none, none, none⟩]) = true
      ∧ (sortByN [⟨4, none, none, none⟩, ⟨1, none, none, none⟩]).getLast?.isSome = true
      ∧ ([⟨1, none, none, none⟩, ⟨2, none, none, none⟩, ⟨3, none, none, none⟩,
          ⟨4, none, none, none⟩] : List Frame).getLast?.isSome = true
      ∧ (((sortByN [⟨4, none, none, none⟩, ⟨1, none, none, none⟩]).getLast?).map
            Frame.n).getD 0
          ≤ ((([⟨1, none, none, none⟩, ⟨2, none, none, none⟩, ⟨3, none, none, none⟩,
              ⟨4, none, none, none⟩] : List Frame).getLast?).map Frame.n).getD 0 :=
  folding_loop_safety 4
    [⟨1, none, none, none⟩, ⟨2, none, none, none⟩, ⟨3, none, none, none⟩,
      ⟨4, none, none, none⟩]
    [⟨4, none, none, none⟩, ⟨1, none, none, none⟩]
    (by decide) (by decide) (by decide) (by decide)

/-- Witness for the amended C7 at a concrete decomposable symbol name. -/
theorem styled_symbol_split_witness :
    styledSymbol "aa::h0123456789abcdef".data
        = ("aa".data, [':', ':', 'h'] ++ "0123456789abcdef".data) :=
  styled_symbol_split.2.2.1 "aa::h0123456789abcdef".data "aa".data
    "0123456789abcdef".data (by decide) (by decide) (by decide) (by decide)

end NocolorEyre
